import Mathlib

/-!
Shallow embedding of the `cow-vec` crate (`src/cow_vec.rs`, `src/iterator.rs`).

The crate's `CowVec<T>` pairs an `Arc`-shared, append-only `typed_arena::Arena`
with a per-instance `Vec<*const T>` of pointers into that arena.  The model
uses a world `State` holding every arena as a list of values in allocation
order; a pointer ("handle") is the index of its slot, which is stable because
the arena is append-only.  Machine pointers carry no other observable content
in the source (they are only dereferenced), so slot indices embed them
faithfully.  Panics are modelled with `Except`; the `Panic` payload records
whether the panic message embeds the offending index and the length.
-/

set_option maxHeartbeats 1000000

universe u

variable {T : Type u}

/-- World of arenas. Arena `j` holds the values ever allocated into it, in
allocation order; `typed_arena::Arena` is append-only, so the slot index is
the model of the `*const T` returned by `CowArena::alloc`. -/
structure State (T : Type u) where
  arenas : List (List T)
deriving DecidableEq

/-- Contents of arena `aid` (empty when no arena has this id). -/
def State.arenaAt (s : State T) (aid : Nat) : List T :=
  s.arenas.getD aid []

/-- Model of `CowArena::len`: the number of allocations ever made in arena
`aid`. -/
def State.arenaLen (s : State T) (aid : Nat) : Nat :=
  (s.arenaAt aid).length

/-- Model of `CowArena::alloc`: appends the value to arena `aid` and returns
the fresh slot's index, the model of the returned raw pointer. -/
def State.alloc (s : State T) (aid : Nat) (x : T) : State T × Nat :=
  (⟨s.arenas.set aid (s.arenaAt aid ++ [x])⟩, s.arenaLen aid)

/-- Model of `Arc::new(CowArena::new())` / `with_capacity`: a fresh empty
arena (capacity is only a hint and does not affect contents). -/
def State.newArena (s : State T) : State T × Nat :=
  (⟨s.arenas ++ [[]]⟩, s.arenas.length)

/-- Sequential allocation of a list of values into arena `aid`, returning the
handles in order (models the `map(|item| arena.alloc(item))` loops of
`From<Vec<T>>`, `splice` and `clone_with_max_capacity`). -/
def State.allocAll (s : State T) (aid : Nat) : List T → State T × List Nat
  | [] => (s, [])
  | x :: xs =>
    let p := s.alloc aid x
    let q := p.1.allocAll aid xs
    (q.1, p.2 :: q.2)

/-- Dereference a handle in arena `aid`; a valid handle always reads `some`. -/
def State.readH (s : State T) (aid h : Nat) : Option T :=
  (s.arenaAt aid).get? h

/-- A `CowVec<T>`: the id of its `Arc`-shared arena plus this instance's own
handle list (`items: Vec<*const T>`). -/
structure CowVec (T : Type u) where
  aid : Nat
  items : List Nat
deriving DecidableEq

/-- `CowVec::len`. -/
def CowVec.len (v : CowVec T) : Nat :=
  v.items.length

/-- `CowVec::get`: look up the handle at `index`, then dereference it (the
Rust dereference is total for the valid pointers the source maintains). -/
def CowVec.get (s : State T) (v : CowVec T) (i : Nat) : Option T :=
  (v.items.get? i).bind fun h => s.readH v.aid h

/-- Sequence of element values read from an instance in positional order: the
observation produced by reading every index. Each entry is `some` for a valid
instance. -/
def CowVec.read (s : State T) (v : CowVec T) : List (Option T) :=
  v.items.map fun h => s.readH v.aid h

/-- Pointer validity: every handle of the instance refers to a slot already
allocated in its arena — the invariant the source's SAFETY comments rely on,
maintained by construction because the arena is append-only. -/
def CowVec.Valid (s : State T) (v : CowVec T) : Prop :=
  ∀ h ∈ v.items, h < s.arenaLen v.aid

instance (s : State T) (v : CowVec T) : Decidable (v.Valid s) :=
  List.decidableBAll _ v.items

/-- A contract violation (Rust panic). `indexAndLen = some (i, n)` models a
panic message that embeds the offending index `i` and the relevant length `n`
(such as "index out of bounds: the len is 3 but the index is 7" from `set`,
or the std `Vec::insert` / `Vec::remove` / `Vec::split_off` assertions);
`none` models a constant message naming neither, as produced by
`Option::expect` with the fixed string "index out of bounds". -/
structure Panic where
  indexAndLen : Option (Nat × Nat)
deriving DecidableEq

deriving instance DecidableEq for Except

/-- `CowVec::new`: a fresh private arena and an empty handle list. -/
def CowVec.new (s : State T) : State T × CowVec T :=
  let p := s.newArena
  (p.1, ⟨p.2, []⟩)

/-- `From<Vec<T>> for CowVec<T>`: a fresh arena, then every element of the
vector allocated into it in order. -/
def CowVec.fromList (s : State T) (l : List T) : State T × CowVec T :=
  let p := s.newArena
  let q := p.1.allocAll p.2 l
  (q.1, ⟨p.2, q.2⟩)

/-- `Clone for CowVec`: the arena is shared (`Arc::clone`) and the handle list
is copied; copying a Lean list is the list itself, and no state changes. -/
def CowVec.clone (v : CowVec T) : CowVec T :=
  ⟨v.aid, v.items⟩

/-- `CowVec::push`: allocate the value in the shared arena, append the new
handle to this instance's list. -/
def CowVec.push (s : State T) (v : CowVec T) (x : T) : State T × CowVec T :=
  let p := s.alloc v.aid x
  (p.1, ⟨v.aid, v.items ++ [p.2]⟩)

/-- `CowVec::pop`: drops the last handle (the value stays in the arena) and
returns the dereferenced value. -/
def CowVec.pop (s : State T) (v : CowVec T) : State T × (CowVec T × Option T) :=
  (s, (⟨v.aid, v.items.dropLast⟩, v.items.getLast?.bind fun h => s.readH v.aid h))

/-- `CowVec::set`: the bound is checked first (its panic message names the
index and the length); only then is the new value allocated and this
instance's handle overwritten. -/
def CowVec.set (s : State T) (v : CowVec T) (i : Nat) (x : T) :
    State T × Except Panic (CowVec T) :=
  if i < v.items.length then
    let p := s.alloc v.aid x
    (p.1, .ok ⟨v.aid, v.items.set i p.2⟩)
  else
    (s, .error ⟨some (i, v.items.length)⟩)

/-- `CowVec::insert`: the source allocates the value into the arena first and
only then calls `Vec::insert`, which panics (naming index and length) when
`index > len` — so a failing call has already grown the arena. -/
def CowVec.insert (s : State T) (v : CowVec T) (i : Nat) (x : T) :
    State T × Except Panic (CowVec T) :=
  let p := s.alloc v.aid x
  if i ≤ v.items.length then
    (p.1, .ok ⟨v.aid, v.items.insertIdx i p.2⟩)
  else
    (p.1, .error ⟨some (i, v.items.length)⟩)

/-- `CowVec::remove`: `Vec::remove` checks the bound before any change; its
panic message names the index and the length. The removed element stays in
the arena and is returned by reference. -/
def CowVec.remove (s : State T) (v : CowVec T) (i : Nat) :
    State T × Except Panic (CowVec T × Option T) :=
  if i < v.items.length then
    (s, .ok (⟨v.aid, v.items.eraseIdx i⟩, (v.items.get? i).bind fun h => s.readH v.aid h))
  else
    (s, .error ⟨some (i, v.items.length)⟩)

/-- `CowVec::swap`: `<[T]>::swap` panics on the first out-of-bounds index,
naming it and the length, before changing anything. -/
def CowVec.swap (s : State T) (v : CowVec T) (a b : Nat) :
    State T × Except Panic (CowVec T) :=
  if a < v.items.length then
    if b < v.items.length then
      (s, .ok ⟨v.aid, (v.items.set a (v.items.getD b 0)).set b (v.items.getD a 0)⟩)
    else
      (s, .error ⟨some (b, v.items.length)⟩)
  else
    (s, .error ⟨some (a, v.items.length)⟩)

/-- `CowVec::reverse`. -/
def CowVec.reverse (s : State T) (v : CowVec T) : State T × CowVec T :=
  (s, ⟨v.aid, v.items.reverse⟩)

/-- `CowVec::truncate`: keeps the first `n` handles; removed values stay in
the arena. -/
def CowVec.truncate (s : State T) (v : CowVec T) (n : Nat) : State T × CowVec T :=
  (s, ⟨v.aid, v.items.take n⟩)

/-- `CowVec::clear`. -/
def CowVec.clear (s : State T) (v : CowVec T) : State T × CowVec T :=
  (s, ⟨v.aid, []⟩)

/-- `CowVec::retain`: keeps the handles whose dereferenced value satisfies the
predicate. An unreadable slot cannot occur for a valid instance; the model
keeps such a handle. -/
def CowVec.retain (s : State T) (v : CowVec T) (p : T → Bool) : State T × CowVec T :=
  (s, ⟨v.aid, v.items.filter fun h => ((s.readH v.aid h).map p).getD true⟩)

/-- `CowVec::extend`: pushes each element of the iterator in order. -/
def CowVec.extend (s : State T) (v : CowVec T) : List T → State T × CowVec T
  | [] => (s, v)
  | x :: xs =>
    let p := CowVec.push s v x
    CowVec.extend p.1 p.2 xs

/-- `CowVec::split_off`: `Vec::split_off` panics (naming `at` and the length)
when `at > len`, before any change; otherwise the source keeps `[0, at)` and
the returned instance, sharing the same arena, gets `[at, len)`. -/
def CowVec.split_off (s : State T) (v : CowVec T) (n : Nat) :
    State T × Except Panic (CowVec T × CowVec T) :=
  if n ≤ v.items.length then
    (s, .ok (⟨v.aid, v.items.take n⟩, ⟨v.aid, v.items.drop n⟩))
  else
    (s, .error ⟨some (n, v.items.length)⟩)

/-- Model of `std::ops::Bound<&usize>` as consumed by `CowVec::splice`. -/
inductive RBound where
  | included (n : Nat)
  | excluded (n : Nat)
  | unbounded
deriving DecidableEq

/-- Resolution of the start bound (source lines 341–345). -/
def RBound.startIndex : RBound → Nat
  | .included n => n
  | .excluded n => n + 1
  | .unbounded => 0

/-- Resolution of the end bound against the current length (lines 346–350). -/
def RBound.endIndex : RBound → Nat → Nat
  | .included n, _ => n + 1
  | .excluded n, _ => n
  | .unbounded, len => len

/-- `CowVec::splice`: resolves the bounds, allocates every replacement into
the arena first, then `Vec::splice` removes `[start, stop)` — panicking
before any change to the handle list when `start > stop` or `stop > len`,
with a message embedding the offending bounds — and inserts the new handles
at that position. The removed elements are returned by reference, modelled as
reads in the post-allocation state. -/
def CowVec.splice (s : State T) (v : CowVec T) (b1 b2 : RBound) (repl : List T) :
    State T × Except Panic (CowVec T × List (Option T)) :=
  let start := b1.startIndex
  let stop := b2.endIndex v.items.length
  let p := s.allocAll v.aid repl
  if start ≤ stop ∧ stop ≤ v.items.length then
    (p.1, .ok (⟨v.aid, v.items.take start ++ p.2 ++ v.items.drop stop⟩,
      ((v.items.drop start).take (stop - start)).map fun h => p.1.readH v.aid h))
  else
    (p.1, .error ⟨if v.items.length < stop then some (stop, v.items.length)
                  else some (start, stop)⟩)

/-- `CowVec::clone_with_max_capacity`: when the arena's allocation count is
within the limit this is exactly `clone()`; otherwise every currently
reachable element is value-cloned, in iteration order, into a brand-new arena
(an unreadable slot cannot occur for a valid instance; the model skips it). -/
def CowVec.clone_with_max_capacity (s : State T) (v : CowVec T) (maxCap : Nat) :
    State T × CowVec T :=
  if s.arenaLen v.aid ≤ maxCap then
    (s, v.clone)
  else
    let vals := (v.read s).reduceOption
    let p := s.newArena
    let q := p.1.allocAll p.2 vals
    (q.1, ⟨p.2, q.2⟩)

/-- `Index for CowVec`: `self.get(index).expect("index out of bounds")` — the
panic message is a constant string naming neither the index nor the length. -/
def CowVec.indexRead (s : State T) (v : CowVec T) (i : Nat) : Except Panic T :=
  match v.get s i with
  | some x => .ok x
  | none => .error ⟨none⟩

/-- `IndexMut for CowVec`: bound check first (its panic message names the
index and the length), then the current value is cloned into a freshly
allocated arena slot and this instance's handle is redirected there. The
returned writable reference is modelled as the fresh handle. An unreadable
slot cannot occur for a valid instance; the model faults there. -/
def CowVec.index_mut (s : State T) (v : CowVec T) (i : Nat) :
    State T × Except Panic (CowVec T × Nat) :=
  if i < v.items.length then
    match v.get s i with
    | some cur =>
      let p := s.alloc v.aid cur
      (p.1, .ok (⟨v.aid, v.items.set i p.2⟩, p.2))
    | none => (s, .error ⟨none⟩)
  else
    (s, .error ⟨some (i, v.items.length)⟩)

/-- `CowVecIter`: the borrowed vector is passed to each call explicitly; the
iterator state proper is only the cursor. -/
structure CowVecIter where
  position : Nat
deriving DecidableEq

/-- `Iterator::next` for `CowVecIter` (source `iterator.rs` lines 13–21). -/
def CowVecIter.next (s : State T) (v : CowVec T) (it : CowVecIter) :
    Option T × CowVecIter :=
  if it.position < v.len then
    (v.get s it.position, ⟨it.position + 1⟩)
  else
    (none, it)

/-- `Iterator::size_hint` for `CowVecIter`: `len - position` for both bounds
(`usize` subtraction, which never underflows for an iterator obtained from
`iter()`, agrees with truncated `Nat` subtraction). -/
def CowVecIter.sizeHint (v : CowVec T) (it : CowVecIter) : Nat × Option Nat :=
  (v.len - it.position, some (v.len - it.position))

/-- Driving the iterator `fuel` times from a cursor, collecting every yielded
value. -/
def CowVecIter.collect (s : State T) (v : CowVec T) (it : CowVecIter) :
    Nat → List (Option T)
  | 0 => []
  | n + 1 =>
    let p := it.next s v
    p.1 :: CowVecIter.collect s v p.2 n

/-- `CowVec::to_vec`: drives the iterator from position 0 to exhaustion
(`iter().cloned().collect()`); `len` calls suffice because the iterator
yields `none` from position `len` on. -/
def CowVec.to_vec (s : State T) (v : CowVec T) : List (Option T) :=
  CowVecIter.collect s v ⟨0⟩ v.len

/-- The surviving instance of a possibly-panicking call: a panic aborts before
the handle list changes, so the instance stays as it was. -/
def orSelf (v : CowVec T) : Except Panic (CowVec T) → CowVec T
  | .ok w => w
  | .error _ => v

/-- The mutating operations named by the clone-independence property. -/
inductive MutOp (T : Type u) where
  | setO (i : Nat) (x : T)
  | pushO (x : T)
  | popO
  | insertO (i : Nat) (x : T)
  | removeO (i : Nat)
  | spliceO (b1 b2 : RBound) (repl : List T)
  | retainO (p : T → Bool)
  | truncateO (n : Nat)
  | clearO
  | reverseO
  | swapO (a b : Nat)
  | extendO (xs : List T)

/-- Runs one mutating operation on an instance: the resulting world state and
the surviving instance (unchanged when the call panicked, though the state
keeps whatever the operation had already allocated). -/
def MutOp.run (s : State T) (v : CowVec T) : MutOp T → State T × CowVec T
  | .setO i x => let p := CowVec.set s v i x; (p.1, orSelf v p.2)
  | .pushO x => CowVec.push s v x
  | .popO => let p := CowVec.pop s v; (p.1, p.2.1)
  | .insertO i x => let p := CowVec.insert s v i x; (p.1, orSelf v p.2)
  | .removeO i => let p := CowVec.remove s v i; (p.1, orSelf v (p.2.map Prod.fst))
  | .spliceO b1 b2 repl =>
    let p := CowVec.splice s v b1 b2 repl; (p.1, orSelf v (p.2.map Prod.fst))
  | .retainO f => CowVec.retain s v f
  | .truncateO n => CowVec.truncate s v n
  | .clearO => CowVec.clear s v
  | .reverseO => CowVec.reverse s v
  | .swapO a b => let p := CowVec.swap s v a b; (p.1, orSelf v p.2)
  | .extendO xs => CowVec.extend s v xs

/-! ## Arena-extension infrastructure

Every operation only ever appends to arenas (and may add arenas); reads
through already-valid handles are therefore never disturbed by mutation of
any instance, which is the heart of clone independence. -/

/-- State evolution: no arena is removed and each arena only grows. -/
def Extends (s s' : State T) : Prop :=
  s.arenas.length ≤ s'.arenas.length ∧ ∀ j, ∃ t, s'.arenaAt j = s.arenaAt j ++ t

theorem extends_rfl (s : State T) : Extends s s :=
  ⟨Nat.le_refl _, fun j => ⟨[], by simp⟩⟩

theorem extends_trans {s s' s'' : State T} (h1 : Extends s s') (h2 : Extends s' s'') :
    Extends s s'' := by
  refine ⟨Nat.le_trans h1.1 h2.1, fun j => ?_⟩
  obtain ⟨t1, ht1⟩ := h1.2 j
  obtain ⟨t2, ht2⟩ := h2.2 j
  exact ⟨t1 ++ t2, by rw [ht2, ht1, List.append_assoc]⟩

theorem length_arenas_alloc (s : State T) (aid : Nat) (x : T) :
    (s.alloc aid x).1.arenas.length = s.arenas.length := by
  simp [State.alloc]

theorem arenaAt_alloc_self (s : State T) (aid : Nat) (x : T) (h : aid < s.arenas.length) :
    (s.alloc aid x).1.arenaAt aid = s.arenaAt aid ++ [x] := by
  simp [State.alloc, State.arenaAt, List.getD_eq_getElem?_getD, List.getElem?_set_self h]

theorem arenaAt_alloc_other (s : State T) (aid : Nat) (x : T) (j : Nat) (h : j ≠ aid) :
    (s.alloc aid x).1.arenaAt j = s.arenaAt j := by
  simp [State.alloc, State.arenaAt, List.getD_eq_getElem?_getD,
    List.getElem?_set_ne (Ne.symm h)]

theorem alloc_extends (s : State T) (aid : Nat) (x : T) : Extends s (s.alloc aid x).1 := by
  refine ⟨Nat.le_of_eq (length_arenas_alloc s aid x).symm, fun j => ?_⟩
  by_cases hj : j = aid
  · subst hj
    by_cases hl : j < s.arenas.length
    · exact ⟨[x], arenaAt_alloc_self s j x hl⟩
    · exact ⟨[], by simp [State.alloc, List.set_eq_of_length_le (Nat.le_of_not_lt hl),
        State.arenaAt]⟩
  · exact ⟨[], by rw [arenaAt_alloc_other s aid x j hj, List.append_nil]⟩

theorem arenaLen_alloc_self (s : State T) (aid : Nat) (x : T) (h : aid < s.arenas.length) :
    (s.alloc aid x).1.arenaLen aid = s.arenaLen aid + 1 := by
  simp [State.arenaLen, arenaAt_alloc_self s aid x h]

theorem newArena_extends (s : State T) : Extends s s.newArena.1 := by
  refine ⟨by simp [State.newArena], fun j => ?_⟩
  by_cases hl : j < s.arenas.length
  · exact ⟨[], by simp [State.newArena, State.arenaAt, List.getD_eq_getElem?_getD,
      List.getElem?_append, hl]⟩
  · refine ⟨(State.newArena s).1.arenaAt j, ?_⟩
    have : s.arenaAt j = [] := by
      simp [State.arenaAt, List.getD_eq_getElem?_getD,
        List.getElem?_eq_none (Nat.le_of_not_lt hl)]
    rw [this, List.nil_append]

theorem allocAll_extends (s : State T) (aid : Nat) (l : List T) :
    Extends s (s.allocAll aid l).1 := by
  induction l generalizing s with
  | nil => exact extends_rfl s
  | cons x xs ih =>
    exact extends_trans (alloc_extends s aid x) (ih (s.alloc aid x).1)

theorem readH_extends {s s' : State T} {aid k : Nat} (h : Extends s s')
    (hk : k < s.arenaLen aid) : s'.readH aid k = s.readH aid k := by
  obtain ⟨t, ht⟩ := h.2 aid
  unfold State.readH
  rw [ht, List.get?_eq_getElem?, List.get?_eq_getElem?, List.getElem?_append]
  have hk' : k < (s.arenaAt aid).length := hk
  rw [if_pos hk']

theorem read_extends {s s' : State T} {v : CowVec T} (h : Extends s s')
    (hv : v.Valid s) : v.read s' = v.read s := by
  unfold CowVec.read
  exact List.map_congr_left fun h' hh => readH_extends h (hv h' hh)

theorem valid_extends {s s' : State T} {v : CowVec T} (h : Extends s s')
    (hv : v.Valid s) : v.Valid s' := by
  intro h' hh
  have h1 := hv h' hh
  obtain ⟨t, ht⟩ := h.2 v.aid
  have : s.arenaLen v.aid ≤ s'.arenaLen v.aid := by
    unfold State.arenaLen
    rw [ht, List.length_append]
    exact Nat.le_add_right _ _
  exact Nat.lt_of_lt_of_le h1 this

theorem extend_extends (s : State T) (v : CowVec T) (xs : List T) :
    Extends s (CowVec.extend s v xs).1 := by
  induction xs generalizing s v with
  | nil => exact extends_rfl s
  | cons x xs ih =>
    exact extends_trans (alloc_extends s v.aid x) (ih (CowVec.push s v x).1 _)

theorem run_extends (s : State T) (v : CowVec T) (op : MutOp T) :
    Extends s (MutOp.run s v op).1 := by
  cases op with
  | setO i x =>
    by_cases hi : i < v.items.length
    · simpa [MutOp.run, CowVec.set, hi] using alloc_extends s v.aid x
    · simp [MutOp.run, CowVec.set, hi, extends_rfl]
  | pushO x => simpa [MutOp.run, CowVec.push] using alloc_extends s v.aid x
  | popO => exact extends_rfl s
  | insertO i x =>
    by_cases hi : i ≤ v.items.length <;>
      simpa [MutOp.run, CowVec.insert, hi] using alloc_extends s v.aid x
  | removeO i =>
    by_cases hi : i < v.items.length <;> simp [MutOp.run, CowVec.remove, hi, extends_rfl]
  | spliceO b1 b2 repl =>
    by_cases hc : b1.startIndex ≤ b2.endIndex v.items.length ∧
        b2.endIndex v.items.length ≤ v.items.length <;>
      simpa [MutOp.run, CowVec.splice, hc] using allocAll_extends s v.aid repl
  | retainO f => exact extends_rfl s
  | truncateO n => exact extends_rfl s
  | clearO => exact extends_rfl s
  | reverseO => exact extends_rfl s
  | swapO a b =>
    by_cases ha : a < v.items.length <;> by_cases hb : b < v.items.length <;>
      simp [MutOp.run, CowVec.swap, ha, hb, extends_rfl]
  | extendO xs => exact extend_extends s v xs

/-! ## Characterization of bulk allocation and construction -/

theorem allocAll_handles_length (s : State T) (aid : Nat) (l : List T) :
    (s.allocAll aid l).2.length = l.length := by
  induction l generalizing s with
  | nil => simp [State.allocAll]
  | cons x xs ih => simp [State.allocAll, ih]

theorem allocAll_spec (s : State T) (aid : Nat) (l : List T) (ha : aid < s.arenas.length) :
    (s.allocAll aid l).1.arenas.length = s.arenas.length ∧
    (s.allocAll aid l).1.arenaAt aid = s.arenaAt aid ++ l ∧
    (s.allocAll aid l).2 = List.range' (s.arenaLen aid) l.length ∧
    ∀ j, j ≠ aid → (s.allocAll aid l).1.arenaAt j = s.arenaAt j := by
  induction l generalizing s with
  | nil => simp [State.allocAll]
  | cons x xs ih =>
    have ha' : aid < (s.alloc aid x).1.arenas.length := by
      rw [length_arenas_alloc]; exact ha
    obtain ⟨l1, l2, l3, l4⟩ := ih (s.alloc aid x).1 ha'
    refine ⟨?_, ?_, ?_, ?_⟩
    · show (((s.alloc aid x).1.allocAll aid xs).1).arenas.length = _
      rw [l1, length_arenas_alloc]
    · show (((s.alloc aid x).1.allocAll aid xs).1).arenaAt aid = _
      rw [l2, arenaAt_alloc_self s aid x ha, List.append_assoc]
      rfl
    · show s.arenaLen aid :: ((s.alloc aid x).1.allocAll aid xs).2 = _
      rw [l3, arenaLen_alloc_self s aid x ha]
      rfl
    · intro j hj
      show (((s.alloc aid x).1.allocAll aid xs).1).arenaAt j = _
      rw [l4 j hj, arenaAt_alloc_other s aid x j hj]

theorem newArena_aid_lt (s : State T) : s.newArena.2 < s.newArena.1.arenas.length := by
  simp [State.newArena]

theorem arenaAt_newArena_self (s : State T) : s.newArena.1.arenaAt s.newArena.2 = [] := by
  simp [State.newArena, State.arenaAt, List.getD_eq_getElem?_getD,
    List.getElem?_append_right (Nat.le_refl s.arenas.length)]

theorem arenaLen_newArena_self (s : State T) : s.newArena.1.arenaLen s.newArena.2 = 0 := by
  simp [State.arenaLen, arenaAt_newArena_self]

theorem map_get?_range' {α : Type u} (l : List α) (a n : Nat) (h : a + n ≤ l.length) :
    (List.range' a n).map (fun k => l.get? k) = ((l.drop a).take n).map some := by
  apply List.ext_getElem?
  intro i
  rw [List.getElem?_map, List.getElem?_map, List.getElem?_take]
  by_cases hi : i < n
  · rw [List.getElem?_range' a 1 hi, List.getElem?_drop, if_pos hi]
    have hlt : a + i < l.length := by omega
    simp only [Option.map_some', Nat.one_mul]
    rw [List.get?_eq_getElem?, List.getElem?_eq_getElem hlt]
    simp
  · have h1 : (List.range' a n)[i]? = none := by
      rw [List.getElem?_eq_none]
      rw [List.length_range']
      omega
    rw [h1, if_neg hi]
    rfl

theorem read_fromList (s : State T) (l : List T) :
    (CowVec.fromList s l).2.read (CowVec.fromList s l).1 = l.map some := by
  obtain ⟨h1, h2, h3, h4⟩ := allocAll_spec s.newArena.1 s.newArena.2 l (newArena_aid_lt s)
  show ((s.newArena.1.allocAll s.newArena.2 l).2.map
    fun h => (s.newArena.1.allocAll s.newArena.2 l).1.readH s.newArena.2 h) = l.map some
  rw [h3, arenaLen_newArena_self]
  unfold State.readH
  rw [h2, arenaAt_newArena_self, List.nil_append]
  have := map_get?_range' l 0 l.length (by omega)
  simpa using this

theorem valid_fromList (s : State T) (l : List T) :
    (CowVec.fromList s l).2.Valid (CowVec.fromList s l).1 := by
  obtain ⟨h1, h2, h3, h4⟩ := allocAll_spec s.newArena.1 s.newArena.2 l (newArena_aid_lt s)
  intro h hh
  show h < (CowVec.fromList s l).1.arenaLen s.newArena.2
  have harena : (CowVec.fromList s l).1.arenaLen s.newArena.2 = l.length := by
    show (s.newArena.1.allocAll s.newArena.2 l).1.arenaLen s.newArena.2 = l.length
    unfold State.arenaLen
    rw [h2, arenaAt_newArena_self, List.nil_append]
  rw [harena]
  have : (CowVec.fromList s l).2.items = List.range' 0 l.length := by
    show (s.newArena.1.allocAll s.newArena.2 l).2 = _
    rw [h3, arenaLen_newArena_self]
  rw [this] at hh
  have := List.mem_range'_1.mp hh
  omega

/-! ## Iterator facts -/

theorem collect_eq_drop_read (s : State T) (v : CowVec T) (n pos : Nat)
    (hn : n = v.len - pos) :
    CowVecIter.collect s v ⟨pos⟩ n = (v.read s).drop pos := by
  induction n generalizing pos with
  | zero =>
    have : (v.read s).length ≤ pos := by
      unfold CowVec.read
      rw [List.length_map]
      have : v.len ≤ pos := by omega
      exact this
    rw [List.drop_eq_nil_of_le this]
    rfl
  | succ n ih =>
    have hpos : pos < v.len := by omega
    have hnext : CowVecIter.next s v ⟨pos⟩ = (v.get s pos, ⟨pos + 1⟩) := by
      simp [CowVecIter.next, hpos]
    show (CowVecIter.next s v ⟨pos⟩).1 ::
      CowVecIter.collect s v (CowVecIter.next s v ⟨pos⟩).2 n = _
    rw [hnext]
    have hread : pos < (v.read s).length := by
      unfold CowVec.read
      rw [List.length_map]
      exact hpos
    rw [List.drop_eq_getElem_cons hread, ih (pos + 1) (by omega)]
    congr 1
    unfold CowVec.read CowVec.get
    rw [List.getElem_map]
    rw [List.get?_eq_getElem?, List.getElem?_eq_getElem hpos]
    rfl

theorem to_vec_eq_read (s : State T) (v : CowVec T) : v.to_vec s = v.read s := by
  have := collect_eq_drop_read s v v.len 0 (by omega)
  simpa [CowVec.to_vec] using this

/-! ## Concrete fixtures used by witnesses -/

/-- The world after `CowVec::from(vec![1, 2, 3])` starting from nothing. -/
def s123 : State Nat := (CowVec.fromList ⟨[]⟩ [1, 2, 3]).1

/-- The instance built by `CowVec::from(vec![1, 2, 3])`. -/
def v123 : CowVec Nat := (CowVec.fromList ⟨[]⟩ [1, 2, 3]).2

/-- The world after `CowVec::from(vec![1, 2, 3, 4, 5])` starting from nothing. -/
def s12345 : State Nat := (CowVec.fromList ⟨[]⟩ [1, 2, 3, 4, 5]).1

/-- The instance built by `CowVec::from(vec![1, 2, 3, 4, 5])`. -/
def v12345 : CowVec Nat := (CowVec.fromList ⟨[]⟩ [1, 2, 3, 4, 5]).2

/-! ## C1: clone independence -/

/-- C1: Clone independence. For any instance `A` and `B = A.clone()`, running
any of the mutating operations (`set`, `push`, `pop`, `insert`, `remove`,
`splice`, `retain`, `truncate`, `clear`, `reverse`, `swap`, `extend`) on `B`
leaves the sequence of element values read from `A` unchanged, and
symmetrically running it on `A` leaves `B`'s read sequence unchanged.  `A`
itself (hence `A.len`) is untouched by an operation on `B`, and the read
sequence always has length `A.len`, so length preservation is contained in
these equalities. -/
theorem c1_clone_independence (s : State T) (A : CowVec T) (hA : A.Valid s)
    (op : MutOp T) :
    A.read (MutOp.run s A.clone op).1 = A.read s ∧
    A.clone.read (MutOp.run s A op).1 = A.clone.read s := by
  constructor
  · exact read_extends (run_extends s A.clone op) hA
  · exact read_extends (run_extends s A op) hA

/-- Witness for C1: the concrete instance `[1, 2, 3]`, clone mutated by
`set(0, 10)`. -/
theorem c1_clone_independence_witness :
    v123.Valid s123 ∧
    (v123.read (MutOp.run s123 v123.clone (.setO 0 10)).1 = v123.read s123 ∧
     v123.clone.read (MutOp.run s123 v123 (.setO 0 10)).1 = v123.clone.read s123) :=
  ⟨by decide, c1_clone_independence s123 v123 (by decide) (.setO 0 10)⟩

/-! ## C6: round trip -/

/-- C6: Round trip. Constructing an instance from any sequence `S`
(`From<Vec<T>>`) and then reading every element in order through the iterator
(`to_vec`) reproduces `S` exactly: same length, same values, same order
(each read is `some`, i.e. succeeds). -/
theorem c6_round_trip (s : State T) (l : List T) :
    (CowVec.fromList s l).2.to_vec (CowVec.fromList s l).1 = l.map some := by
  rw [to_vec_eq_read]
  exact read_fromList s l

/-! ## C2: sharing introspection (spec-modelled layer)

`is_structure_shared` and `is_storage_shared`, and the reference-counted
Structure object they observe, do not appear in `src/` — only the test file
calls them.  This layer models them from the spec (§3, §4.2, §4.4). -/

/-- Modelled from the spec: the missing reference-counting state behind
`is_structure_shared` / `is_storage_shared`.  Each Structure (handle list
object) and each Arena is reference-counted (§3); entry `i` is the number of
live instances currently owning object `i`. -/
structure ShState where
  structOwners : List Nat
  arenaOwners : List Nat
deriving DecidableEq

/-- Modelled from the spec: a container instance pairs a shared-ownership
reference to an Arena with a shared-ownership reference to a Structure
(§3). -/
structure ShVec where
  sid : Nat
  aid : Nat
deriving DecidableEq

/-- Modelled from the spec: `clone()` returns a storage- and structure-shared
instance (§6); both owner counts grow by one and the clone references the
same Structure and Arena. -/
def ShState.cloneSh (st : ShState) (v : ShVec) : ShState × ShVec :=
  (⟨st.structOwners.set v.sid (st.structOwners.getD v.sid 0 + 1),
    st.arenaOwners.set v.aid (st.arenaOwners.getD v.aid 0 + 1)⟩, v)

/-- Modelled from the spec: every mutating call first ensures the calling
instance holds a private Structure — when its Structure is shared (≥ 2
owners) the handle list is duplicated into a fresh Structure owned only by
this instance, and the old Structure loses one owner (§4.2, §9); the Arena
reference is never touched by ordinary mutation (§4.4). -/
def ShState.mutateSh (st : ShState) (v : ShVec) : ShState × ShVec :=
  if 2 ≤ st.structOwners.getD v.sid 0 then
    (⟨(st.structOwners.set v.sid (st.structOwners.getD v.sid 0 - 1)) ++ [1],
      st.arenaOwners⟩,
     ⟨st.structOwners.length, v.aid⟩)
  else
    (st, v)

/-- Modelled from the spec: `is_structure_shared()` reports whether at least
two live instances currently reference the same Structure object (§4.4). -/
def ShState.is_structure_shared (st : ShState) (v : ShVec) : Bool :=
  2 ≤ st.structOwners.getD v.sid 0

/-- Modelled from the spec: `is_storage_shared()` reports whether at least two
live instances reference the same Arena (§4.4). -/
def ShState.is_storage_shared (st : ShState) (v : ShVec) : Bool :=
  2 ≤ st.arenaOwners.getD v.aid 0

theorem getD_set_self {l : List Nat} {i : Nat} (x d : Nat) (h : i < l.length) :
    (l.set i x).getD i d = x := by
  rw [List.getD_eq_getElem?_getD, List.getElem?_set_self h]
  rfl

theorem getD_append_self (l : List Nat) (x d : Nat) :
    (l ++ [x]).getD l.length d = x := by
  rw [List.getD_eq_getElem?_getD, List.getElem?_append_right (Nat.le_refl _)]
  simp
theorem getD_append_left (l t : List Nat) (i d : Nat) (h : i < l.length) :
    (l ++ t).getD i d = l.getD i d := by
  rw [List.getD_eq_getElem?_getD, List.getD_eq_getElem?_getD, List.getElem?_append]
  rw [if_pos h]

/-- C2: Sharing introspection, against the spec-modelled layer.  For an
instance `A` that is currently the sole owner of its Structure and of its
Arena: immediately after `B = A.clone()` both `A` and `B` report
`is_structure_shared() = true` and `is_storage_shared() = true`; after a
mutating call on either of them (immediately after the clone the two
instances are the same model value, referencing the same Structure and the
same Arena, so one clause covers mutating either), `is_structure_shared()`
is `false` for both — the mutated one and the untouched one — while
`is_storage_shared()` remains `true` for both: non-compacting mutation never
changes which Arena is referenced. -/
theorem c2_sharing_introspection (st : ShState) (v : ShVec)
    (hs : st.structOwners.getD v.sid 0 = 1) (hsid : v.sid < st.structOwners.length)
    (ha : st.arenaOwners.getD v.aid 0 = 1) (haid : v.aid < st.arenaOwners.length) :
    ((st.cloneSh v).1.is_structure_shared v = true ∧
     (st.cloneSh v).1.is_structure_shared (st.cloneSh v).2 = true ∧
     (st.cloneSh v).1.is_storage_shared v = true ∧
     (st.cloneSh v).1.is_storage_shared (st.cloneSh v).2 = true) ∧
    (((st.cloneSh v).1.mutateSh (st.cloneSh v).2).1.is_structure_shared v = false ∧
     ((st.cloneSh v).1.mutateSh (st.cloneSh v).2).1.is_structure_shared
       ((st.cloneSh v).1.mutateSh (st.cloneSh v).2).2 = false ∧
     ((st.cloneSh v).1.mutateSh (st.cloneSh v).2).1.is_storage_shared v = true ∧
     ((st.cloneSh v).1.mutateSh (st.cloneSh v).2).1.is_storage_shared
       ((st.cloneSh v).1.mutateSh (st.cloneSh v).2).2 = true) := by
  have hc2 : (st.cloneSh v).1.structOwners.getD v.sid 0 = 2 := by
    show (st.structOwners.set v.sid (st.structOwners.getD v.sid 0 + 1)).getD v.sid 0 = 2
    rw [getD_set_self _ 0 hsid, hs]
  have ha2 : (st.cloneSh v).1.arenaOwners.getD v.aid 0 = 2 := by
    show (st.arenaOwners.set v.aid (st.arenaOwners.getD v.aid 0 + 1)).getD v.aid 0 = 2
    rw [getD_set_self _ 0 haid, ha]
  have hc2' := hc2
  rw [List.getD_eq_getElem?_getD] at hc2'
  have ha2' := ha2
  rw [List.getD_eq_getElem?_getD] at ha2'
  have hshared : (st.cloneSh v).1.is_structure_shared v = true := by
    simp [ShState.is_structure_shared, hc2']
  have hstor : (st.cloneSh v).1.is_storage_shared v = true := by
    simp [ShState.is_storage_shared, ha2']
  have hsidlen : v.sid < (st.cloneSh v).1.structOwners.length := by
    show v.sid < (st.structOwners.set v.sid (st.structOwners.getD v.sid 0 + 1)).length
    rw [List.length_set]
    exact hsid
  have hm : (st.cloneSh v).1.mutateSh ((st.cloneSh v).2) =
      (⟨((st.cloneSh v).1.structOwners.set v.sid 1) ++ [1],
        (st.cloneSh v).1.arenaOwners⟩,
       ⟨(st.cloneSh v).1.structOwners.length, v.aid⟩) := by
    show (st.cloneSh v).1.mutateSh v = _
    unfold ShState.mutateSh
    simp [hc2']
  have hfalse1 : (((st.cloneSh v).1.structOwners.set v.sid 1) ++ [1]).getD v.sid 0 = 1 := by
    rw [getD_append_left _ _ _ _ (by rw [List.length_set]; exact hsidlen)]
    rw [getD_set_self 1 0 hsidlen]
  have hfalse2 : (((st.cloneSh v).1.structOwners.set v.sid 1) ++ [1]).getD
      (st.cloneSh v).1.structOwners.length 0 = 1 := by
    have hl : ((st.cloneSh v).1.structOwners.set v.sid 1).length =
        (st.cloneSh v).1.structOwners.length := List.length_set _ _ _
    rw [← hl]
    exact getD_append_self _ 1 0
  have hfalse1' := hfalse1
  rw [List.getD_eq_getElem?_getD] at hfalse1'
  have hfalse2' := hfalse2
  rw [List.getD_eq_getElem?_getD] at hfalse2'
  refine ⟨⟨hshared, hshared, hstor, hstor⟩, ?_, ?_, ?_, ?_⟩
  · rw [hm]
    simp [ShState.is_structure_shared, hfalse1']
  · rw [hm]
    simp [ShState.is_structure_shared, hfalse2']
  · rw [hm]
    simp [ShState.is_storage_shared, ha2']
  · rw [hm]
    simp [ShState.is_storage_shared, ha2']

/-- Witness for C2: a world with exactly one Structure and one Arena, each
owned once by the single instance. -/
theorem c2_sharing_introspection_witness :
    ((ShState.cloneSh ⟨[1], [1]⟩ ⟨0, 0⟩).1.is_structure_shared ⟨0, 0⟩ = true ∧
     (ShState.cloneSh ⟨[1], [1]⟩ ⟨0, 0⟩).1.is_structure_shared
       (ShState.cloneSh ⟨[1], [1]⟩ ⟨0, 0⟩).2 = true ∧
     (ShState.cloneSh ⟨[1], [1]⟩ ⟨0, 0⟩).1.is_storage_shared ⟨0, 0⟩ = true ∧
     (ShState.cloneSh ⟨[1], [1]⟩ ⟨0, 0⟩).1.is_storage_shared
       (ShState.cloneSh ⟨[1], [1]⟩ ⟨0, 0⟩).2 = true) ∧
    (((ShState.cloneSh ⟨[1], [1]⟩ ⟨0, 0⟩).1.mutateSh
        (ShState.cloneSh ⟨[1], [1]⟩ ⟨0, 0⟩).2).1.is_structure_shared ⟨0, 0⟩ = false ∧
     ((ShState.cloneSh ⟨[1], [1]⟩ ⟨0, 0⟩).1.mutateSh
        (ShState.cloneSh ⟨[1], [1]⟩ ⟨0, 0⟩).2).1.is_structure_shared
       ((ShState.cloneSh ⟨[1], [1]⟩ ⟨0, 0⟩).1.mutateSh
         (ShState.cloneSh ⟨[1], [1]⟩ ⟨0, 0⟩).2).2 = false ∧
     ((ShState.cloneSh ⟨[1], [1]⟩ ⟨0, 0⟩).1.mutateSh
        (ShState.cloneSh ⟨[1], [1]⟩ ⟨0, 0⟩).2).1.is_storage_shared ⟨0, 0⟩ = true ∧
     ((ShState.cloneSh ⟨[1], [1]⟩ ⟨0, 0⟩).1.mutateSh
        (ShState.cloneSh ⟨[1], [1]⟩ ⟨0, 0⟩).2).1.is_storage_shared
       ((ShState.cloneSh ⟨[1], [1]⟩ ⟨0, 0⟩).1.mutateSh
         (ShState.cloneSh ⟨[1], [1]⟩ ⟨0, 0⟩).2).2 = true) :=
  c2_sharing_introspection ⟨[1], [1]⟩ ⟨0, 0⟩ (by decide) (by decide) (by decide) (by decide)

/-! ## C3: mutation atomicity on contract violation -/

/-- C3 counterexample: on the empty instance, `insert(1, 7)` aborts with a
contract violation and leaves the handle list untouched, yet the Arena's
allocation count has already grown from 0 to 1, because the source allocates
the value before `Vec::insert` performs its bounds check. -/
theorem c3_atomicity_counterexample :
    (CowVec.insert (CowVec.fromList (⟨[]⟩ : State Nat) []).1
        (CowVec.fromList (⟨[]⟩ : State Nat) []).2 1 7).2 = .error ⟨some (1, 0)⟩ ∧
    (CowVec.fromList (⟨[]⟩ : State Nat) []).1.arenaLen
        (CowVec.fromList (⟨[]⟩ : State Nat) []).2.aid = 0 ∧
    (CowVec.insert (CowVec.fromList (⟨[]⟩ : State Nat) []).1
        (CowVec.fromList (⟨[]⟩ : State Nat) []).2 1 7).1.arenaLen
        (CowVec.fromList (⟨[]⟩ : State Nat) []).2.aid = 1 := by
  decide

/-- C3 amended: a mutating operation called with an out-of-range index or
range aborts without ever changing the instance's handle list, and `set`,
`remove`, `swap`, `split_off` and `index_mut` leave the whole observable
state (Arena included) exactly as it was; `insert` and `splice`, however,
allocate the replacement value(s) into the Arena before their bounds check,
so a failing `insert` leaves the Arena's allocation count grown by exactly
one and a failing `splice` by exactly the number of replacement elements. -/
theorem c3_atomicity_amended (s : State T) (v : CowVec T) :
    (∀ i x, v.items.length ≤ i →
      CowVec.set s v i x = (s, .error ⟨some (i, v.items.length)⟩)) ∧
    (∀ i, v.items.length ≤ i →
      CowVec.remove s v i = (s, .error ⟨some (i, v.items.length)⟩)) ∧
    (∀ a b, v.items.length ≤ a →
      CowVec.swap s v a b = (s, .error ⟨some (a, v.items.length)⟩)) ∧
    (∀ a b, a < v.items.length → v.items.length ≤ b →
      CowVec.swap s v a b = (s, .error ⟨some (b, v.items.length)⟩)) ∧
    (∀ n, v.items.length < n →
      CowVec.split_off s v n = (s, .error ⟨some (n, v.items.length)⟩)) ∧
    (∀ i, v.items.length ≤ i →
      CowVec.index_mut s v i = (s, .error ⟨some (i, v.items.length)⟩)) ∧
    (∀ i x, v.items.length < i →
      CowVec.insert s v i x =
        ((s.alloc v.aid x).1, .error ⟨some (i, v.items.length)⟩)) ∧
    (∀ i x, v.items.length < i → v.aid < s.arenas.length →
      (CowVec.insert s v i x).1.arenaLen v.aid = s.arenaLen v.aid + 1) ∧
    (∀ b1 b2 repl,
      ¬(b1.startIndex ≤ b2.endIndex v.items.length ∧
        b2.endIndex v.items.length ≤ v.items.length) →
      (CowVec.splice s v b1 b2 repl).1 = (s.allocAll v.aid repl).1 ∧
      ∃ e, (CowVec.splice s v b1 b2 repl).2 = Except.error e) ∧
    (∀ b1 b2 repl,
      ¬(b1.startIndex ≤ b2.endIndex v.items.length ∧
        b2.endIndex v.items.length ≤ v.items.length) →
      v.aid < s.arenas.length →
      (CowVec.splice s v b1 b2 repl).1.arenaLen v.aid =
        s.arenaLen v.aid + repl.length) := by
  have hins : ∀ i x, v.items.length < i →
      CowVec.insert s v i x =
        ((s.alloc v.aid x).1, .error ⟨some (i, v.items.length)⟩) := by
    intro i x hi
    simp [CowVec.insert, show ¬ i ≤ v.items.length by omega]
  have hsplice : ∀ b1 b2 (repl : List T),
      ¬(b1.startIndex ≤ b2.endIndex v.items.length ∧
        b2.endIndex v.items.length ≤ v.items.length) →
      (CowVec.splice s v b1 b2 repl).1 = (s.allocAll v.aid repl).1 := by
    intro b1 b2 repl hc
    simp [CowVec.splice, hc]
  refine ⟨?_, ?_, ?_, ?_, ?_, ?_, hins, ?_, ?_, ?_⟩
  · intro i x hi
    simp [CowVec.set, show ¬ i < v.items.length by omega]
  · intro i hi
    simp [CowVec.remove, show ¬ i < v.items.length by omega]
  · intro a b ha
    simp [CowVec.swap, show ¬ a < v.items.length by omega]
  · intro a b ha hb
    simp [CowVec.swap, ha, show ¬ b < v.items.length by omega]
  · intro n hn
    simp [CowVec.split_off, show ¬ n ≤ v.items.length by omega]
  · intro i hi
    simp [CowVec.index_mut, show ¬ i < v.items.length by omega]
  · intro i x hi haid
    rw [hins i x hi]
    exact arenaLen_alloc_self s v.aid x haid
  · intro b1 b2 repl hc
    refine ⟨hsplice b1 b2 repl hc, ?_⟩
    refine ⟨⟨if v.items.length < b2.endIndex v.items.length then
        some (b2.endIndex v.items.length, v.items.length)
      else some (b1.startIndex, b2.endIndex v.items.length)⟩, ?_⟩
    simp [CowVec.splice, hc]
  · intro b1 b2 repl hc haid
    rw [hsplice b1 b2 repl hc]
    obtain ⟨-, h2, -, -⟩ := allocAll_spec s v.aid repl haid
    unfold State.arenaLen
    rw [h2, List.length_append]

/-- Witness for C3 amended: the concrete instance `[1, 2, 3]` with the
out-of-range index 5 for `set` (state fully unchanged) and for `insert`
(state already holds one extra allocation). -/
theorem c3_atomicity_amended_witness :
    CowVec.set s123 v123 5 9 = (s123, .error ⟨some (5, 3)⟩) ∧
    CowVec.insert s123 v123 5 9 =
      ((s123.alloc v123.aid 9).1, .error ⟨some (5, 3)⟩) ∧
    (CowVec.insert s123 v123 5 9).1.arenaLen v123.aid = s123.arenaLen v123.aid + 1 :=
  ⟨(c3_atomicity_amended s123 v123).1 5 9 (by decide),
   (c3_atomicity_amended s123 v123).2.2.2.2.2.2.1 5 9 (by decide),
   (c3_atomicity_amended s123 v123).2.2.2.2.2.2.2.1 5 9 (by decide) (by decide)⟩

/-! ## C8: bounds enforcement -/

/-- C8 counterexample: indexed read access (`Index for CowVec`) on `[1, 2, 3]`
with index 5 aborts via `expect("index out of bounds")` — a constant message
that names neither the offending index nor the length (payload `none`),
contrary to the claim that every listed accessor's violation message names
both. -/
theorem c8_bounds_counterexample :
    CowVec.indexRead s123 v123 5 = .error ⟨none⟩ := by
  decide

/-- C8 amended: `set`, `remove`, `insert`, `swap` and `split_off` each abort
on an out-of-range index with a contract violation whose message names the
offending index and the length; the indexed read accessor also aborts on an
out-of-range index, but with the constant message "index out of bounds",
which names neither; and no in-range call to any of these operations ever
triggers a contract violation. -/
theorem c8_bounds_enforcement (s : State T) (v : CowVec T) :
    (∀ i x, v.items.length ≤ i →
      (CowVec.set s v i x).2 = .error ⟨some (i, v.items.length)⟩) ∧
    (∀ i, v.items.length ≤ i →
      (CowVec.remove s v i).2 = .error ⟨some (i, v.items.length)⟩) ∧
    (∀ i x, v.items.length < i →
      (CowVec.insert s v i x).2 = .error ⟨some (i, v.items.length)⟩) ∧
    (∀ a b, v.items.length ≤ a →
      (CowVec.swap s v a b).2 = .error ⟨some (a, v.items.length)⟩) ∧
    (∀ a b, a < v.items.length → v.items.length ≤ b →
      (CowVec.swap s v a b).2 = .error ⟨some (b, v.items.length)⟩) ∧
    (∀ n, v.items.length < n →
      (CowVec.split_off s v n).2 = .error ⟨some (n, v.items.length)⟩) ∧
    (∀ i, v.items.length ≤ i → CowVec.indexRead s v i = .error ⟨none⟩) ∧
    (∀ i x, i < v.items.length → ∃ w, (CowVec.set s v i x).2 = .ok w) ∧
    (∀ i, i < v.items.length → ∃ w, (CowVec.remove s v i).2 = .ok w) ∧
    (∀ i x, i ≤ v.items.length → ∃ w, (CowVec.insert s v i x).2 = .ok w) ∧
    (∀ a b, a < v.items.length → b < v.items.length →
      ∃ w, (CowVec.swap s v a b).2 = .ok w) ∧
    (∀ n, n ≤ v.items.length → ∃ w, (CowVec.split_off s v n).2 = .ok w) ∧
    (v.Valid s → ∀ i, i < v.items.length → ∃ x, CowVec.indexRead s v i = .ok x) := by
  refine ⟨?_, ?_, ?_, ?_, ?_, ?_, ?_, ?_, ?_, ?_, ?_, ?_, ?_⟩
  · intro i x hi
    simp [CowVec.set, show ¬ i < v.items.length by omega]
  · intro i hi
    simp [CowVec.remove, show ¬ i < v.items.length by omega]
  · intro i x hi
    simp [CowVec.insert, show ¬ i ≤ v.items.length by omega]
  · intro a b ha
    simp [CowVec.swap, show ¬ a < v.items.length by omega]
  · intro a b ha hb
    simp [CowVec.swap, ha, show ¬ b < v.items.length by omega]
  · intro n hn
    simp [CowVec.split_off, show ¬ n ≤ v.items.length by omega]
  · intro i hi
    have hnone : v.get s i = none := by
      unfold CowVec.get
      rw [List.get?_eq_getElem?, List.getElem?_eq_none hi]
      rfl
    simp [CowVec.indexRead, hnone]
  · intro i x hi
    exact ⟨⟨v.aid, v.items.set i (s.alloc v.aid x).2⟩, by simp [CowVec.set, hi]⟩
  · intro i hi
    exact ⟨(⟨v.aid, v.items.eraseIdx i⟩, s.readH v.aid v.items[i]),
      by simp [CowVec.remove, hi]⟩
  · intro i x hi
    exact ⟨⟨v.aid, List.insertIdx i (s.alloc v.aid x).2 v.items⟩,
      by simp [CowVec.insert, hi]⟩
  · intro a b ha hb
    exact ⟨⟨v.aid, (v.items.set a v.items[b]).set b v.items[a]⟩,
      by simp [CowVec.swap, ha, hb]⟩
  · intro n hn
    exact ⟨(⟨v.aid, List.take n v.items⟩, ⟨v.aid, List.drop n v.items⟩),
      by simp [CowVec.split_off, hn]⟩
  · intro hv i hi
    have hlt := hv _ (List.getElem_mem hi)
    have hlt' : v.items[i] < (s.arenaAt v.aid).length := hlt
    have hsome : v.get s i = some (s.arenaAt v.aid)[v.items[i]] := by
      unfold CowVec.get
      rw [List.get?_eq_getElem?, List.getElem?_eq_getElem hi, Option.some_bind]
      unfold State.readH
      rw [List.get?_eq_getElem?, List.getElem?_eq_getElem hlt']
    exact ⟨(s.arenaAt v.aid)[v.items[i]], by simp [CowVec.indexRead, hsome]⟩

/-- Witness for C8 amended: the concrete instance `[1, 2, 3]` — `set(5, 9)`
panics naming index 5 and length 3, indexed read at 5 panics with the
constant message, and the in-range `set(1, 9)` does not panic. -/
theorem c8_bounds_enforcement_witness :
    (CowVec.set s123 v123 5 9).2 = .error ⟨some (5, 3)⟩ ∧
    CowVec.indexRead s123 v123 5 = Except.error ⟨none⟩ ∧
    ∃ w, (CowVec.set s123 v123 1 9).2 = .ok w :=
  ⟨(c8_bounds_enforcement s123 v123).1 5 9 (by decide),
   (c8_bounds_enforcement s123 v123).2.2.2.2.2.2.1 5 (by decide),
   (c8_bounds_enforcement s123 v123).2.2.2.2.2.2.2.1 1 9 (by decide)⟩

/-! ## C9: iterator exactness -/

/-- C9: Iterator exactness.  Driving the iterator from position 0 for `len`
steps yields exactly the instance's current elements in positional order
(the read sequence); from any position at or beyond `len` the iterator
yields `none` and does not advance (so it is finite: exactly `len` elements,
then `None` forever); and at every cursor position both components of
`size_hint` equal `len - position`. -/
theorem c9_iterator_exact (s : State T) (v : CowVec T) :
    CowVecIter.collect s v ⟨0⟩ v.len = v.read s ∧
    (∀ it : CowVecIter, v.len ≤ it.position →
      CowVecIter.next s v it = (none, it)) ∧
    (∀ it : CowVecIter,
      CowVecIter.sizeHint v it = (v.len - it.position, some (v.len - it.position))) := by
  refine ⟨?_, ?_, ?_⟩
  · have := collect_eq_drop_read s v v.len 0 (by omega)
    simpa using this
  · intro it hit
    simp [CowVecIter.next, show ¬ it.position < v.len by omega]
  · intro it
    rfl

/-- Witness for C9: the concrete instance `[1, 2, 3]`; exhausted cursor at
position 3; `size_hint` at position 1 is `(2, Some 2)`. -/
theorem c9_iterator_exact_witness :
    CowVecIter.collect s123 v123 ⟨0⟩ v123.len = v123.read s123 ∧
    CowVecIter.next s123 v123 ⟨3⟩ = (none, ⟨3⟩) ∧
    CowVecIter.sizeHint v123 ⟨1⟩ = (2, some 2) :=
  ⟨(c9_iterator_exact s123 v123).1,
   (c9_iterator_exact s123 v123).2.1 ⟨3⟩ (by decide),
   (c9_iterator_exact s123 v123).2.2 ⟨1⟩⟩

/-! ## C5: mutable-reference indexing always allocates -/

theorem readH_alloc_self (s : State T) (aid : Nat) (x : T) (ha : aid < s.arenas.length) :
    (s.alloc aid x).1.readH aid (s.alloc aid x).2 = some x := by
  show (s.alloc aid x).1.readH aid (s.arenaLen aid) = some x
  unfold State.readH
  rw [arenaAt_alloc_self s aid x ha, List.get?_eq_getElem?]
  have hl : s.arenaLen aid = (s.arenaAt aid).length := rfl
  rw [hl, List.getElem?_append_right (Nat.le_refl _)]
  simp

/-- C5: Mutable-reference indexing always allocates.  For a valid instance
and any in-range index, `index_mut` succeeds and grows the arena's
allocation count by exactly one; the freshly allocated slot holds a
duplicate of the value currently at the index; the returned writable
reference is that fresh slot; and, when the caller never writes through the
reference, the instance's read sequence afterwards is unchanged. -/
theorem c5_index_mut_allocates (s : State T) (v : CowVec T) (i : Nat)
    (hv : v.Valid s) (ha : v.aid < s.arenas.length) (hi : i < v.items.length) :
    (CowVec.index_mut s v i).1.arenaLen v.aid = s.arenaLen v.aid + 1 ∧
    ∃ w h, (CowVec.index_mut s v i).2 = .ok (w, h) ∧
      (CowVec.index_mut s v i).1.readH v.aid h = v.get s i ∧
      w.read (CowVec.index_mut s v i).1 = v.read s := by
  have hlt := hv _ (List.getElem_mem hi)
  have hlt' : v.items[i] < (s.arenaAt v.aid).length := hlt
  have hget : v.get s i = some (s.arenaAt v.aid)[v.items[i]] := by
    unfold CowVec.get
    rw [List.get?_eq_getElem?, List.getElem?_eq_getElem hi, Option.some_bind]
    unfold State.readH
    rw [List.get?_eq_getElem?, List.getElem?_eq_getElem hlt']
  have hred : CowVec.index_mut s v i =
      ((s.alloc v.aid (s.arenaAt v.aid)[v.items[i]]).1,
       .ok (⟨v.aid, v.items.set i (s.alloc v.aid (s.arenaAt v.aid)[v.items[i]]).2⟩,
            (s.alloc v.aid (s.arenaAt v.aid)[v.items[i]]).2)) := by
    unfold CowVec.index_mut
    rw [if_pos hi, hget]
  have hext := alloc_extends s v.aid (s.arenaAt v.aid)[v.items[i]]
  have holdread : s.readH v.aid v.items[i] = some (s.arenaAt v.aid)[v.items[i]] := by
    unfold State.readH
    rw [List.get?_eq_getElem?, List.getElem?_eq_getElem hlt']
  refine ⟨?_, ⟨⟨v.aid, v.items.set i (s.alloc v.aid (s.arenaAt v.aid)[v.items[i]]).2⟩,
    (s.alloc v.aid (s.arenaAt v.aid)[v.items[i]]).2, ?_, ?_, ?_⟩⟩
  · rw [hred]
    exact arenaLen_alloc_self s v.aid _ ha
  · rw [hred]
  · rw [hred]
    exact (readH_alloc_self s v.aid _ ha).trans hget.symm
  · rw [hred]
    apply List.ext_getElem?
    intro j
    unfold CowVec.read
    rw [List.getElem?_map, List.getElem?_map]
    by_cases hj : j < v.items.length
    · by_cases hji : j = i
      · subst hji
        rw [List.getElem?_set_self (by simpa using hj), List.getElem?_eq_getElem hj]
        simp only [Option.map_some']
        rw [readH_alloc_self s v.aid _ ha, holdread]
      · rw [List.getElem?_set_ne (Ne.symm hji), List.getElem?_eq_getElem hj]
        simp only [Option.map_some']
        rw [readH_extends hext (hv _ (List.getElem_mem hj))]
    · have h1 : (v.items.set i (s.alloc v.aid (s.arenaAt v.aid)[v.items[i]]).2)[j]? = none := by
        rw [List.getElem?_eq_none]
        rw [List.length_set]
        omega
      have h2 : v.items[j]? = none := by
        rw [List.getElem?_eq_none]
        omega
      rw [h1, h2]
      rfl

/-- Witness for C5: the concrete instance `[1, 2, 3]` at index 0. -/
theorem c5_index_mut_allocates_witness :
    (CowVec.index_mut s123 v123 0).1.arenaLen v123.aid = s123.arenaLen v123.aid + 1 ∧
    ∃ w h, (CowVec.index_mut s123 v123 0).2 = .ok (w, h) ∧
      (CowVec.index_mut s123 v123 0).1.readH v123.aid h = v123.get s123 0 ∧
      w.read (CowVec.index_mut s123 v123 0).1 = v123.read s123 :=
  c5_index_mut_allocates s123 v123 0 (by decide) (by decide) (by decide)

/-! ## C4: clone_with_max_capacity -/

theorem read_all_isSome (s : State T) (v : CowVec T) (hv : v.Valid s) :
    ∀ x ∈ v.read s, x.isSome := by
  intro x hx
  obtain ⟨h, hh, rfl⟩ := List.mem_map.mp hx
  have hlt : h < (s.arenaAt v.aid).length := hv h hh
  unfold State.readH
  rw [List.get?_eq_getElem?, List.getElem?_eq_getElem hlt]
  rfl

theorem reduceOption_map_some {α : Type u} (l : List (Option α))
    (h : ∀ x ∈ l, x.isSome) : l.reduceOption.map some = l := by
  induction l with
  | nil => rfl
  | cons x xs ih =>
    cases x with
    | none => simpa using h none (List.mem_cons_self _ _)
    | some a =>
      have := ih fun y hy => h y (List.mem_cons_of_mem _ hy)
      rw [List.reduceOption_cons_of_some, List.map_cons, this]

theorem arenaLen_fromList (s : State T) (l : List T) :
    (CowVec.fromList s l).1.arenaLen (CowVec.fromList s l).2.aid = l.length := by
  obtain ⟨-, h2, -, -⟩ := allocAll_spec s.newArena.1 s.newArena.2 l (newArena_aid_lt s)
  show (s.newArena.1.allocAll s.newArena.2 l).1.arenaLen s.newArena.2 = l.length
  unfold State.arenaLen
  rw [h2, arenaAt_newArena_self, List.nil_append]

/-- C4: `clone_with_max_capacity` correctness.  For a valid instance: when
the arena's allocation count is at most the limit, the result is exactly a
normal clone in an unchanged world (same elements, shared arena); when the
count exceeds the limit, the result has the same read sequence (same visible
elements in the same order), references a brand-new arena (its id is fresh —
one past every existing arena), and that arena's allocation count equals the
instance's current element count. -/
theorem c4_clone_with_max_capacity (s : State T) (v : CowVec T) (limit : Nat)
    (hv : v.Valid s) :
    (s.arenaLen v.aid ≤ limit →
      CowVec.clone_with_max_capacity s v limit = (s, v.clone)) ∧
    (limit < s.arenaLen v.aid →
      (CowVec.clone_with_max_capacity s v limit).2.read
          (CowVec.clone_with_max_capacity s v limit).1 = v.read s ∧
      (CowVec.clone_with_max_capacity s v limit).2.aid = s.arenas.length ∧
      (CowVec.clone_with_max_capacity s v limit).1.arenaLen
          (CowVec.clone_with_max_capacity s v limit).2.aid = v.len) := by
  constructor
  · intro h
    simp [CowVec.clone_with_max_capacity, h]
  · intro h
    have hnot : ¬ s.arenaLen v.aid ≤ limit := by omega
    have hred2 : CowVec.clone_with_max_capacity s v limit =
        CowVec.fromList s ((v.read s).reduceOption) := by
      unfold CowVec.clone_with_max_capacity CowVec.fromList
      rw [if_neg hnot]
    have hsome := read_all_isSome s v hv
    have hmap := reduceOption_map_some (v.read s) hsome
    have hlen : ((v.read s).reduceOption).length = v.len := by
      have h1 := congrArg List.length hmap
      rw [List.length_map] at h1
      unfold CowVec.read at h1
      rw [List.length_map] at h1
      exact h1
    refine ⟨?_, ?_, ?_⟩
    · rw [hred2, read_fromList, hmap]
    · rw [hred2]
      rfl
    · rw [hred2, arenaLen_fromList]
      exact hlen

/-- The world and surviving instance after `set(0, 10)` on `[1, 2, 3]` — the
arena now holds 4 allocations while the instance has 3 elements. -/
def sv4 : State Nat × CowVec Nat := MutOp.run s123 v123 (.setO 0 10)

/-- Witness for C4: on `sv4` (arena count 4, length 3), limit 10 shares
everything, and limit 3 compacts into a fresh arena of exactly 3 slots. -/
theorem c4_clone_with_max_capacity_witness :
    (CowVec.clone_with_max_capacity sv4.1 sv4.2 10 = (sv4.1, sv4.2.clone)) ∧
    ((CowVec.clone_with_max_capacity sv4.1 sv4.2 3).2.read
        (CowVec.clone_with_max_capacity sv4.1 sv4.2 3).1 = sv4.2.read sv4.1 ∧
     (CowVec.clone_with_max_capacity sv4.1 sv4.2 3).2.aid = sv4.1.arenas.length ∧
     (CowVec.clone_with_max_capacity sv4.1 sv4.2 3).1.arenaLen
        (CowVec.clone_with_max_capacity sv4.1 sv4.2 3).2.aid = sv4.2.len) :=
  ⟨(c4_clone_with_max_capacity sv4.1 sv4.2 10 (by decide)).1 (by decide),
   (c4_clone_with_max_capacity sv4.1 sv4.2 3 (by decide)).2 (by decide)⟩

/-! ## C7: splice semantics -/

/-- C7: Splice semantics.  For a valid instance and an in-bounds resolved
range `[start, stop)` (start from the start bound, stop from the end bound,
with standard inclusive / exclusive / unbounded resolution), `splice`
succeeds, returns exactly the reads of the removed positions
`start, …, stop-1` in order, and the resulting instance reads as: the
prefix before `start`, then one element per replacement in order, then the
suffix from `stop`. -/
theorem c7_splice_semantics (s : State T) (v : CowVec T) (hv : v.Valid s)
    (ha : v.aid < s.arenas.length) (b1 b2 : RBound) (repl : List T)
    (h1 : b1.startIndex ≤ b2.endIndex v.items.length)
    (h2 : b2.endIndex v.items.length ≤ v.items.length) :
    ∃ w,
      (CowVec.splice s v b1 b2 repl).2 =
        .ok (w, ((v.read s).drop b1.startIndex).take
          (b2.endIndex v.items.length - b1.startIndex)) ∧
      w.read (CowVec.splice s v b1 b2 repl).1 =
        (v.read s).take b1.startIndex ++ repl.map some ++
          (v.read s).drop (b2.endIndex v.items.length) := by
  have hext := allocAll_extends s v.aid repl
  obtain ⟨hs1, hs2, hs3, hs4⟩ := allocAll_spec s v.aid repl ha
  have hred : CowVec.splice s v b1 b2 repl =
      ((s.allocAll v.aid repl).1,
       .ok (⟨v.aid, v.items.take b1.startIndex ++ (s.allocAll v.aid repl).2 ++
              v.items.drop (b2.endIndex v.items.length)⟩,
        ((v.items.drop b1.startIndex).take
            (b2.endIndex v.items.length - b1.startIndex)).map
          fun h => (s.allocAll v.aid repl).1.readH v.aid h)) := by
    unfold CowVec.splice
    rw [if_pos ⟨h1, h2⟩]
  have hcongr : ∀ (l : List Nat), (∀ h ∈ l, h ∈ v.items) →
      l.map (fun h => (s.allocAll v.aid repl).1.readH v.aid h) =
        l.map fun h => s.readH v.aid h := by
    intro l hl
    exact List.map_congr_left fun h hh => readH_extends hext (hv h (hl h hh))
  have hrem : ((v.items.drop b1.startIndex).take
        (b2.endIndex v.items.length - b1.startIndex)).map
        (fun h => (s.allocAll v.aid repl).1.readH v.aid h) =
      ((v.read s).drop b1.startIndex).take
        (b2.endIndex v.items.length - b1.startIndex) := by
    rw [hcongr _ fun h hh => List.mem_of_mem_drop (List.mem_of_mem_take hh)]
    unfold CowVec.read
    rw [List.map_take, List.map_drop]
  have hnew : (s.allocAll v.aid repl).2.map
      (fun h => (s.allocAll v.aid repl).1.readH v.aid h) = repl.map some := by
    rw [hs3]
    have : ∀ k, (s.allocAll v.aid repl).1.readH v.aid k =
        (s.arenaAt v.aid ++ repl).get? k := by
      intro k
      unfold State.readH
      rw [hs2]
    calc (List.range' (s.arenaLen v.aid) repl.length).map
          (fun h => (s.allocAll v.aid repl).1.readH v.aid h)
        = (List.range' (s.arenaLen v.aid) repl.length).map
            (fun k => (s.arenaAt v.aid ++ repl).get? k) :=
          List.map_congr_left fun k _ => this k
      _ = (((s.arenaAt v.aid ++ repl).drop (s.arenaAt v.aid).length).take
            repl.length).map some := by
          have hle : (s.arenaAt v.aid).length + repl.length ≤
              (s.arenaAt v.aid ++ repl).length := by
            rw [List.length_append]
          exact map_get?_range' _ _ _ hle
      _ = repl.map some := by
          rw [List.drop_left, List.take_length]
  refine ⟨⟨v.aid, v.items.take b1.startIndex ++ (s.allocAll v.aid repl).2 ++
      v.items.drop (b2.endIndex v.items.length)⟩, ?_, ?_⟩
  · rw [hred, hrem]
  · rw [hred]
    show (CowVec.read _ ⟨v.aid, _⟩) = _
    unfold CowVec.read
    rw [List.map_append, List.map_append, hnew]
    rw [hcongr _ fun h hh => List.mem_of_mem_take hh]
    rw [hcongr _ fun h hh => List.mem_of_mem_drop hh]
    rw [List.map_take, List.map_drop]

/-- Witness for C7: the claim's concrete scenario — `splice(1..3, [10,20,30])`
on `[1,2,3,4,5]` returns removed `[2, 3]` and leaves `[1,10,20,30,4,5]` — as
an application of the theorem plus the literal evaluation. -/
theorem c7_splice_semantics_witness :
    (∃ w,
      (CowVec.splice s12345 v12345 (.included 1) (.excluded 3) [10, 20, 30]).2 =
        .ok (w, ((v12345.read s12345).drop (RBound.included 1).startIndex).take
          ((RBound.excluded 3).endIndex v12345.items.length -
            (RBound.included 1).startIndex)) ∧
      w.read (CowVec.splice s12345 v12345 (.included 1) (.excluded 3) [10, 20, 30]).1 =
        (v12345.read s12345).take (RBound.included 1).startIndex ++
          [10, 20, 30].map some ++
          (v12345.read s12345).drop
            ((RBound.excluded 3).endIndex v12345.items.length)) ∧
    (CowVec.splice s12345 v12345 (.included 1) (.excluded 3) [10, 20, 30]).2 =
      .ok (⟨0, [0, 5, 6, 7, 3, 4]⟩, [some 2, some 3]) ∧
    (⟨0, [0, 5, 6, 7, 3, 4]⟩ : CowVec Nat).read
      (CowVec.splice s12345 v12345 (.included 1) (.excluded 3) [10, 20, 30]).1 =
      [some 1, some 10, some 20, some 30, some 4, some 5] :=
  ⟨c7_splice_semantics s12345 v12345 (by decide) (by decide) (.included 1)
      (.excluded 3) [10, 20, 30] (by decide) (by decide),
   by decide, by decide⟩

/-! ## C10: the length ≤ arena-allocation-count invariant -/

/-- The C10 invariant for one instance: its arena exists in the world and its
length does not exceed that arena's allocation count. -/
def LenInv (s : State T) (v : CowVec T) : Prop :=
  v.aid < s.arenas.length ∧ v.len ≤ s.arenaLen v.aid

theorem inv_extends {s s' : State T} {v : CowVec T} (he : Extends s s')
    (h : LenInv s v) : LenInv s' v := by
  obtain ⟨t, ht⟩ := he.2 v.aid
  refine ⟨Nat.lt_of_lt_of_le h.1 he.1, Nat.le_trans h.2 ?_⟩
  unfold State.arenaLen
  rw [ht, List.length_append]
  exact Nat.le_add_right _ _

theorem push_inv (s : State T) (v : CowVec T) (x : T) (h : LenInv s v) :
    LenInv (CowVec.push s v x).1 (CowVec.push s v x).2 := by
  refine ⟨?_, ?_⟩
  · show v.aid < (s.alloc v.aid x).1.arenas.length
    rw [length_arenas_alloc]
    exact h.1
  · show (v.items ++ [(s.alloc v.aid x).2]).length ≤ (s.alloc v.aid x).1.arenaLen v.aid
    rw [List.length_append, arenaLen_alloc_self s v.aid x h.1]
    exact Nat.add_le_add_right h.2 1

theorem extend_inv (s : State T) (v : CowVec T) (xs : List T) (h : LenInv s v) :
    LenInv (CowVec.extend s v xs).1 (CowVec.extend s v xs).2 := by
  induction xs generalizing s v with
  | nil => exact h
  | cons x xs ih =>
    show LenInv (CowVec.extend (CowVec.push s v x).1 (CowVec.push s v x).2 xs).1
      (CowVec.extend (CowVec.push s v x).1 (CowVec.push s v x).2 xs).2
    exact ih _ _ (push_inv s v x h)

theorem run_inv (s : State T) (v : CowVec T) (op : MutOp T) (h : LenInv s v) :
    LenInv (MutOp.run s v op).1 (MutOp.run s v op).2 := by
  have h2 : v.items.length ≤ s.arenaLen v.aid := h.2
  cases op with
  | setO i x =>
    by_cases hi : i < v.items.length
    · have hred : MutOp.run s v (.setO i x) =
          ((s.alloc v.aid x).1, ⟨v.aid, v.items.set i (s.alloc v.aid x).2⟩) := by
        simp [MutOp.run, CowVec.set, hi, orSelf]
      rw [hred]
      refine ⟨?_, ?_⟩
      · show v.aid < (s.alloc v.aid x).1.arenas.length
        rw [length_arenas_alloc]
        exact h.1
      · show (v.items.set i (s.alloc v.aid x).2).length ≤
          (s.alloc v.aid x).1.arenaLen v.aid
        rw [List.length_set, arenaLen_alloc_self s v.aid x h.1]
        omega
    · have hred : MutOp.run s v (.setO i x) = (s, v) := by
        simp [MutOp.run, CowVec.set, hi, orSelf]
      rw [hred]
      exact h
  | pushO x => exact push_inv s v x h
  | popO =>
    refine ⟨h.1, ?_⟩
    show v.items.dropLast.length ≤ s.arenaLen v.aid
    rw [List.length_dropLast]
    omega
  | insertO i x =>
    by_cases hi : i ≤ v.items.length
    · have hred : MutOp.run s v (.insertO i x) =
          ((s.alloc v.aid x).1, ⟨v.aid, List.insertIdx i (s.alloc v.aid x).2 v.items⟩) := by
        simp [MutOp.run, CowVec.insert, hi, orSelf]
      rw [hred]
      refine ⟨?_, ?_⟩
      · show v.aid < (s.alloc v.aid x).1.arenas.length
        rw [length_arenas_alloc]
        exact h.1
      · show (List.insertIdx i (s.alloc v.aid x).2 v.items).length ≤
          (s.alloc v.aid x).1.arenaLen v.aid
        rw [List.length_insertIdx _ _ hi, arenaLen_alloc_self s v.aid x h.1]
        omega
    · have hred : MutOp.run s v (.insertO i x) = ((s.alloc v.aid x).1, v) := by
        simp [MutOp.run, CowVec.insert, hi, orSelf]
      rw [hred]
      exact inv_extends (alloc_extends s v.aid x) h
  | removeO i =>
    by_cases hi : i < v.items.length
    · have hred : MutOp.run s v (.removeO i) = (s, ⟨v.aid, v.items.eraseIdx i⟩) := by
        simp [MutOp.run, CowVec.remove, hi, orSelf, Except.map]
      rw [hred]
      refine ⟨h.1, ?_⟩
      show (v.items.eraseIdx i).length ≤ s.arenaLen v.aid
      rw [List.length_eraseIdx, if_pos hi]
      omega
    · have hred : MutOp.run s v (.removeO i) = (s, v) := by
        simp [MutOp.run, CowVec.remove, hi, orSelf, Except.map]
      rw [hred]
      exact h
  | spliceO b1 b2 repl =>
    by_cases hc : b1.startIndex ≤ b2.endIndex v.items.length ∧
        b2.endIndex v.items.length ≤ v.items.length
    · have hred : MutOp.run s v (.spliceO b1 b2 repl) =
          ((s.allocAll v.aid repl).1,
           ⟨v.aid, v.items.take b1.startIndex ++ (s.allocAll v.aid repl).2 ++
             v.items.drop (b2.endIndex v.items.length)⟩) := by
        simp [MutOp.run, CowVec.splice, hc, orSelf, Except.map]
      rw [hred]
      obtain ⟨hs1, hs2, -, -⟩ := allocAll_spec s v.aid repl h.1
      refine ⟨?_, ?_⟩
      · show v.aid < (s.allocAll v.aid repl).1.arenas.length
        rw [hs1]
        exact h.1
      · show (v.items.take b1.startIndex ++ (s.allocAll v.aid repl).2 ++
          v.items.drop (b2.endIndex v.items.length)).length ≤
          (s.allocAll v.aid repl).1.arenaLen v.aid
        have hlen : (s.allocAll v.aid repl).1.arenaLen v.aid =
            s.arenaLen v.aid + repl.length := by
          unfold State.arenaLen
          rw [hs2, List.length_append]
        rw [List.length_append, List.length_append, hlen,
          allocAll_handles_length, List.length_take, List.length_drop]
        obtain ⟨hc1, hc2⟩ := hc
        omega
    · have hred : MutOp.run s v (.spliceO b1 b2 repl) =
          ((s.allocAll v.aid repl).1, v) := by
        simp [MutOp.run, CowVec.splice, hc, orSelf, Except.map]
      rw [hred]
      exact inv_extends (allocAll_extends s v.aid repl) h
  | retainO f =>
    refine ⟨h.1, ?_⟩
    show (v.items.filter _).length ≤ s.arenaLen v.aid
    exact Nat.le_trans (List.length_filter_le _ _) h.2
  | truncateO n =>
    refine ⟨h.1, ?_⟩
    show (v.items.take n).length ≤ s.arenaLen v.aid
    rw [List.length_take]
    omega
  | clearO => exact ⟨h.1, Nat.zero_le _⟩
  | reverseO =>
    refine ⟨h.1, ?_⟩
    show v.items.reverse.length ≤ s.arenaLen v.aid
    rw [List.length_reverse]
    omega
  | swapO a b =>
    by_cases ha : a < v.items.length
    · by_cases hb : b < v.items.length
      · have hred : MutOp.run s v (.swapO a b) =
            (s, ⟨v.aid, (v.items.set a (v.items.getD b 0)).set b (v.items.getD a 0)⟩) := by
          simp [MutOp.run, CowVec.swap, ha, hb, orSelf]
        rw [hred]
        refine ⟨h.1, ?_⟩
        show ((v.items.set a (v.items.getD b 0)).set b (v.items.getD a 0)).length ≤
          s.arenaLen v.aid
        rw [List.length_set, List.length_set]
        omega
      · have hred : MutOp.run s v (.swapO a b) = (s, v) := by
          simp [MutOp.run, CowVec.swap, ha, hb, orSelf]
        rw [hred]
        exact h
    · have hred : MutOp.run s v (.swapO a b) = (s, v) := by
        simp [MutOp.run, CowVec.swap, ha, orSelf]
      rw [hred]
      exact h
  | extendO xs => exact extend_inv s v xs h

theorem fromList_extends (s : State T) (l : List T) :
    Extends s (CowVec.fromList s l).1 :=
  extends_trans (newArena_extends s) (allocAll_extends s.newArena.1 s.newArena.2 l)

theorem cwmc_extends (s : State T) (v : CowVec T) (c : Nat) :
    Extends s (CowVec.clone_with_max_capacity s v c).1 := by
  by_cases hc : s.arenaLen v.aid ≤ c
  · have hred : CowVec.clone_with_max_capacity s v c = (s, v.clone) := by
      simp [CowVec.clone_with_max_capacity, hc]
    rw [hred]
    exact extends_rfl s
  · have hred : CowVec.clone_with_max_capacity s v c =
        CowVec.fromList s ((v.read s).reduceOption) := by
      unfold CowVec.clone_with_max_capacity CowVec.fromList
      rw [if_neg hc]
    rw [hred]
    exact fromList_extends s _

theorem index_mut_extends (s : State T) (v : CowVec T) (j : Nat) :
    Extends s (CowVec.index_mut s v j).1 := by
  unfold CowVec.index_mut
  by_cases hj : j < v.items.length
  · rw [if_pos hj]
    cases hg : v.get s j with
    | none => exact extends_rfl s
    | some cur => exact alloc_extends s v.aid cur
  · rw [if_neg hj]
    exact extends_rfl s

theorem new_leninv (s : State T) : LenInv (CowVec.new s).1 (CowVec.new s).2 :=
  ⟨newArena_aid_lt s, Nat.zero_le _⟩

theorem fromList_leninv (s : State T) (l : List T) :
    LenInv (CowVec.fromList s l).1 (CowVec.fromList s l).2 := by
  obtain ⟨hs1, -, -, -⟩ := allocAll_spec s.newArena.1 s.newArena.2 l (newArena_aid_lt s)
  constructor
  · show s.newArena.2 < (s.newArena.1.allocAll s.newArena.2 l).1.arenas.length
    rw [hs1]
    exact newArena_aid_lt s
  · have harena := arenaLen_fromList s l
    show (CowVec.fromList s l).2.items.length ≤
      (CowVec.fromList s l).1.arenaLen (CowVec.fromList s l).2.aid
    rw [harena]
    show (s.newArena.1.allocAll s.newArena.2 l).2.length ≤ l.length
    rw [allocAll_handles_length]

theorem cwmc_leninv (s : State T) (v : CowVec T) (c : Nat) (h : LenInv s v) :
    LenInv (CowVec.clone_with_max_capacity s v c).1
      (CowVec.clone_with_max_capacity s v c).2 := by
  by_cases hc : s.arenaLen v.aid ≤ c
  · have hred : CowVec.clone_with_max_capacity s v c = (s, v.clone) := by
      simp [CowVec.clone_with_max_capacity, hc]
    rw [hred]
    exact h
  · have hred : CowVec.clone_with_max_capacity s v c =
        CowVec.fromList s ((v.read s).reduceOption) := by
      unfold CowVec.clone_with_max_capacity CowVec.fromList
      rw [if_neg hc]
    rw [hred]
    exact fromList_leninv s _

/-- The source instance surviving `split_off` (unchanged when the call
panics before any change). -/
def splitKeep (s : State T) (v : CowVec T) (n : Nat) : CowVec T :=
  match (CowVec.split_off s v n).2 with
  | .ok q => q.1
  | .error _ => v

/-- The fresh instance produced by a successful `split_off` (none when the
call panics). -/
def splitRest (s : State T) (v : CowVec T) (n : Nat) : List (CowVec T) :=
  match (CowVec.split_off s v n).2 with
  | .ok q => [q.2]
  | .error _ => []

/-- The instance surviving an `index_mut` call (unchanged on panic). -/
def imKeep (s : State T) (v : CowVec T) (j : Nat) : CowVec T :=
  match (CowVec.index_mut s v j).2 with
  | .ok q => q.1
  | .error _ => v

theorem splitKeep_leninv (s : State T) (v : CowVec T) (n : Nat) (h : LenInv s v) :
    LenInv s (splitKeep s v n) := by
  have h2 : v.items.length ≤ s.arenaLen v.aid := h.2
  unfold splitKeep CowVec.split_off
  by_cases hn : n ≤ v.items.length
  · rw [if_pos hn]
    refine ⟨h.1, ?_⟩
    show (v.items.take n).length ≤ s.arenaLen v.aid
    rw [List.length_take]
    omega
  · rw [if_neg hn]
    exact h

theorem splitRest_leninv (s : State T) (v : CowVec T) (n : Nat) (h : LenInv s v) :
    ∀ w ∈ splitRest s v n, LenInv s w := by
  have h2 : v.items.length ≤ s.arenaLen v.aid := h.2
  intro w hw
  unfold splitRest CowVec.split_off at hw
  by_cases hn : n ≤ v.items.length
  · rw [if_pos hn] at hw
    have hw' : w = ⟨v.aid, v.items.drop n⟩ := by simpa using hw
    subst hw'
    refine ⟨h.1, ?_⟩
    show (v.items.drop n).length ≤ s.arenaLen v.aid
    rw [List.length_drop]
    omega
  · rw [if_neg hn] at hw
    simp at hw

theorem imKeep_leninv (s : State T) (v : CowVec T) (j : Nat) (h : LenInv s v) :
    LenInv (CowVec.index_mut s v j).1 (imKeep s v j) := by
  have h2 : v.items.length ≤ s.arenaLen v.aid := h.2
  unfold imKeep CowVec.index_mut
  by_cases hj : j < v.items.length
  · rw [if_pos hj]
    cases hg : v.get s j with
    | none => exact h
    | some cur =>
      refine ⟨?_, ?_⟩
      · show v.aid < (s.alloc v.aid cur).1.arenas.length
        rw [length_arenas_alloc]
        exact h.1
      · show (v.items.set j (s.alloc v.aid cur).2).length ≤
          (s.alloc v.aid cur).1.arenaLen v.aid
        rw [List.length_set, arenaLen_alloc_self s v.aid cur h.1]
        omega
  · rw [if_neg hj]
    exact h

/-- One step of the public API acting on a configuration: the shared world
state plus the list of live instances; a step either constructs a new
instance or acts on the `i`-th live one. -/
inductive Step : State T → List (CowVec T) → State T → List (CowVec T) → Prop where
  | newStep (s : State T) (vs : List (CowVec T)) :
      Step s vs (CowVec.new s).1 (vs ++ [(CowVec.new s).2])
  | fromListStep (s : State T) (vs : List (CowVec T)) (l : List T) :
      Step s vs (CowVec.fromList s l).1 (vs ++ [(CowVec.fromList s l).2])
  | cloneStep (s : State T) (vs : List (CowVec T)) (i : Nat) (v : CowVec T)
      (h : vs.get? i = some v) :
      Step s vs s (vs ++ [v.clone])
  | mutStep (s : State T) (vs : List (CowVec T)) (i : Nat) (v : CowVec T)
      (op : MutOp T) (h : vs.get? i = some v) :
      Step s vs (MutOp.run s v op).1 (vs.set i (MutOp.run s v op).2)
  | splitStep (s : State T) (vs : List (CowVec T)) (i : Nat) (v : CowVec T)
      (n : Nat) (h : vs.get? i = some v) :
      Step s vs s (vs.set i (splitKeep s v n) ++ splitRest s v n)
  | compactStep (s : State T) (vs : List (CowVec T)) (i : Nat) (v : CowVec T)
      (c : Nat) (h : vs.get? i = some v) :
      Step s vs (CowVec.clone_with_max_capacity s v c).1
        (vs ++ [(CowVec.clone_with_max_capacity s v c).2])
  | indexMutStep (s : State T) (vs : List (CowVec T)) (i : Nat) (v : CowVec T)
      (j : Nat) (h : vs.get? i = some v) :
      Step s vs (CowVec.index_mut s v j).1 (vs.set i (imKeep s v j))

/-- Configurations reachable from the empty world by sequences of public
operations. -/
inductive Reach : State T → List (CowVec T) → Prop where
  | init : Reach ⟨[]⟩ []
  | step {s : State T} {vs : List (CowVec T)} {s' : State T}
      {vs' : List (CowVec T)} (h : Reach s vs) (hs : Step s vs s' vs') :
      Reach s' vs'

theorem mem_append_singleton {α : Type u} {w x : α} {l : List α}
    (hw : w ∈ l ++ [x]) : w ∈ l ∨ w = x := by
  rw [List.mem_append] at hw
  cases hw with
  | inl h1 => exact Or.inl h1
  | inr h1 => exact Or.inr (by simpa using h1)

theorem step_leninv {s : State T} {vs : List (CowVec T)} {s' : State T}
    {vs' : List (CowVec T)} (hstep : Step s vs s' vs')
    (h : ∀ v ∈ vs, LenInv s v) : ∀ v ∈ vs', LenInv s' v := by
  cases hstep with
  | newStep =>
    intro w hw
    rcases mem_append_singleton hw with hmem | hw'
    · exact inv_extends (newArena_extends s) (h w hmem)
    · subst hw'
      exact new_leninv s
  | fromListStep l =>
    intro w hw
    rcases mem_append_singleton hw with hmem | hw'
    · exact inv_extends (fromList_extends s l) (h w hmem)
    · subst hw'
      exact fromList_leninv s l
  | cloneStep i v hv =>
    intro w hw
    rcases mem_append_singleton hw with hmem | hw'
    · exact h w hmem
    · subst hw'
      exact h v (List.get?_mem hv)
  | mutStep i v op hv =>
    intro w hw
    rcases List.mem_or_eq_of_mem_set hw with hmem | hw'
    · exact inv_extends (run_extends s v op) (h w hmem)
    · subst hw'
      exact run_inv s v op (h v (List.get?_mem hv))
  | splitStep i v n hv =>
    intro w hw
    rw [List.mem_append] at hw
    rcases hw with hw | hw
    · rcases List.mem_or_eq_of_mem_set hw with hmem | hw'
      · exact h w hmem
      · subst hw'
        exact splitKeep_leninv s v n (h v (List.get?_mem hv))
    · exact splitRest_leninv s v n (h v (List.get?_mem hv)) w hw
  | compactStep i v c hv =>
    intro w hw
    rcases mem_append_singleton hw with hmem | hw'
    · exact inv_extends (cwmc_extends s v c) (h w hmem)
    · subst hw'
      exact cwmc_leninv s v c (h v (List.get?_mem hv))
  | indexMutStep i v j hv =>
    intro w hw
    rcases List.mem_or_eq_of_mem_set hw with hmem | hw'
    · exact inv_extends (index_mut_extends s v j) (h w hmem)
    · subst hw'
      exact imKeep_leninv s v j (h v (List.get?_mem hv))

theorem reach_leninv {s : State T} {vs : List (CowVec T)} (h : Reach s vs) :
    ∀ v ∈ vs, LenInv s v := by
  induction h with
  | init =>
    intro v hv
    simp at hv
  | step h1 hs ih => exact step_leninv hs ih

/-- C10: For every configuration reachable by any sequence of public
operations (construction, clone, the twelve `MutOp` mutations — push, pop,
set, insert, remove, splice, retain, truncate, clear, extend, swap, reverse —
plus `split_off`, `clone_with_max_capacity` and `index_mut`), every live
instance's length is at most the total allocation count of the arena it
references: the relation holds initially and every operation preserves it. -/
theorem c10_length_le_arena (s : State T) (vs : List (CowVec T))
    (h : Reach s vs) : ∀ v ∈ vs, v.len ≤ s.arenaLen v.aid :=
  fun v hv => (reach_leninv h v hv).2

/-- Witness for C10: the configuration obtained by constructing `[1, 2, 3]`
from the empty world. -/
theorem c10_length_le_arena_witness :
    v123.len ≤ s123.arenaLen v123.aid :=
  c10_length_le_arena s123 ([] ++ [v123])
    (Reach.step Reach.init (Step.fromListStep ⟨[]⟩ [] [1, 2, 3]))
    v123 (by simp)
